import Mathlib

set_option maxHeartbeats 1000000

namespace WSIViewer

/-!  Shallow embedding of the WSI-Viewer pyramid / tile-cache subsystem:
`lru_reader_cache - v0.py` (LRU cache of reader handles) and
`wsi_reader.py` (`read_wsi_metadata`, `PngLikeReader._build_pyramid`,
`PngLikeReader.get_tile`).  -/

/-! ### LRU reader cache (`lru_reader_cache - v0.py`) -/

/-- `Reader`: wraps a file path; its `id` is the file path itself. -/
structure Reader where
  file_path : String
deriving DecidableEq, Repr

/-- Association-list lookup, modelling Python `dict` key lookup /
`key in dict` membership. -/
def alookup {α β : Type} [DecidableEq α] : List (α × β) → α → Option β
  | [], _ => none
  | (k, v) :: t, a => if k = a then some v else alookup t a

/-- `LRUReaderCache`: `max_size` plus an `OrderedDict` modelled as an
association list in recency order — least-recently-used first,
most-recently-used last. -/
structure LRUReaderCache where
  max_size : Int
  cache : List (String × Reader)
deriving DecidableEq, Repr

/-- `OrderedDict.move_to_end(key)`: relocate the entry for `key` (whose value
is `v`) to the most-recently-used end, preserving the relative order of the
other entries. -/
def moveToEnd {β : Type} (l : List (String × β)) (a : String) (v : β) :
    List (String × β) :=
  l.filter (fun p => p.1 ≠ a) ++ [(a, v)]

/-- `LRUReaderCache(max_size)`: construction performs no capacity
validation — any integer is accepted as-is. -/
def LRUReaderCache.init (max_size : Int) : LRUReaderCache :=
  { max_size := max_size, cache := [] }

/-- `LRUReaderCache()` with the default argument `max_size=5`. -/
def LRUReaderCache.initDefault : LRUReaderCache :=
  LRUReaderCache.init 5

/-- `LRUReaderCache.get`: return the cached reader and mark it most recently
used (`move_to_end`), or `None` when absent (cache unchanged). -/
def LRUReaderCache.get (c : LRUReaderCache) (fp : String) :
    Option Reader × LRUReaderCache :=
  match alookup c.cache fp with
  | none => (none, c)
  | some r => (some r, { c with cache := moveToEnd c.cache fp r })

/-- `LRUReaderCache.add`: return the existing reader via `get` (marking it most
recently used), else create a new `Reader`; when `len(cache) >= max_size`,
first evict the least-recently-used entry (`popitem(last=False)`), then insert
the new entry at the most-recently-used end.  `popitem` on an empty
`OrderedDict` raises `KeyError`; that error path is `none`. -/
def LRUReaderCache.add (c : LRUReaderCache) (fp : String) :
    Option (Reader × LRUReaderCache) :=
  match alookup c.cache fp with
  | some _ =>
      match c.get fp with
      | (some r, c') => some (r, c')
      | (none, _) => none
  | none =>
      let new_reader : Reader := ⟨fp⟩
      if c.max_size ≤ (c.cache.length : Int) then
        match c.cache with
        | [] => none
        | _ :: rest =>
            some (new_reader, { c with cache := rest ++ [(fp, new_reader)] })
      else
        some (new_reader, { c with cache := c.cache ++ [(fp, new_reader)] })

/-! ### `PngLikeReader._build_pyramid` (`wsi_reader.py`) -/

/-- `math.ceil(math.log2(max_dimension / min_dimension)) + 1`, the level count
computed by `_build_pyramid`.  The floating-point arithmetic is modelled
exactly over `ℚ` (`Int.clog 2 q = ⌈log₂ q⌉`). -/
def levelCountOf (width height min_dimension : Nat) : Int :=
  Int.clog 2 (((max width height : ℕ) : ℚ) / ((min_dimension : ℕ) : ℚ)) + 1

/-- One step of the dimension update in the level loop:
`current = max(current // 2, min_dimension)`. -/
def halveClamp (min_dimension w : Nat) : Nat :=
  max (w / 2) min_dimension

/-- The level-generation loop of `_build_pyramid`: produce `n` levels starting
at `(w, h)` and loop index `level`, each recording `(current_width,
current_height)` and the downsample `math.pow(2, level)`, then updating both
dimensions with `halveClamp`. -/
def buildLevels (min_dimension : Nat) : Nat → Nat → Nat → Nat → List ((Nat × Nat) × ℚ)
  | 0, _, _, _ => []
  | n + 1, level, w, h =>
      ((w, h), (2 : ℚ) ^ level) ::
        buildLevels min_dimension n (level + 1) (halveClamp min_dimension w)
          (halveClamp min_dimension h)

/-- The slide `info` dictionary built by `_build_pyramid` (the fields the
claims are about). -/
structure SlideInfo where
  dimensions : Nat × Nat
  level_count : Int
  level_dimensions : List (Nat × Nat)
  level_downsamples : List ℚ
deriving DecidableEq, Repr

/-- `_build_pyramid` on a successfully decoded image of size
`width × height`: `range(level_count)` of a non-positive `level_count` is
empty, which `Int.toNat` models. -/
def buildPyramidInfo (width height min_dimension : Nat) : SlideInfo :=
  { dimensions := (width, height)
    level_count := levelCountOf width height min_dimension
    level_dimensions :=
      (buildLevels min_dimension (levelCountOf width height min_dimension).toNat
        0 width height).map (·.1)
    level_downsamples :=
      (buildLevels min_dimension (levelCountOf width height min_dimension).toNat
        0 width height).map (·.2) }

/-- `PngLikeReader.open_slide` on a fresh reader: `decoded` is the result of
locating and decoding the file (`cv2.imread`), `none` when the path does not
exist or the image cannot be read — those paths return `(False, None)`;
otherwise `_build_pyramid` runs and the call returns `(True, info)`. -/
def openSlidePng (decoded : Option (Nat × Nat)) (min_dimension : Nat) :
    Bool × Option SlideInfo :=
  match decoded with
  | none => (false, none)
  | some (w, h) => (true, some (buildPyramidInfo w h min_dimension))

/-! ### `read_wsi_metadata` (`wsi_reader.py`) -/

/-- A raw pyvips property value: a Python scalar (`str`, `int`, `float`) or
any other (structured/opaque) value. -/
inductive PropValue
  | str (s : String)
  | int (n : Int)
  | float (q : ℚ)
  | other
deriving DecidableEq, Repr

/-- `isinstance(v, (str, int, float))`. -/
def PropValue.isScalar : PropValue → Bool
  | .other => false
  | _ => true

/-- Python `\s` (ASCII whitespace classes used by `re`). -/
def isPySpace (c : Char) : Bool :=
  c = ' ' || c = '\t' || c = '\n' || c = '\r' || c = '\x0b' || c = '\x0c'

/-- Python `[\d.]`. -/
def isDigitDot (c : Char) : Bool :=
  c.isDigit || c = '.'

/-- Consume the literal characters `key` from the front of `s`. -/
def dropKey : List Char → List Char → Option (List Char)
  | [], s => some s
  | _, [] => none
  | k :: ks, c :: cs => if k = c then dropKey ks cs else none

/-- Try to match `<key>\s*=\s*([\d.]+)` at the start of `s`, returning the
captured group.  For this pattern the greedy, backtracking-free reading agrees
with Python `re` semantics: `\s*` consumes all whitespace (and `=`, digits and
dots are not whitespace), `[\d.]+` consumes greedily and is final. -/
def matchKeyNumAt (key s : List Char) : Option (List Char) :=
  match dropKey key s with
  | none => none
  | some s₁ =>
      match s₁.dropWhile isPySpace with
      | [] => none
      | c :: rest =>
          if c = '=' then
            let group := (rest.dropWhile isPySpace).takeWhile isDigitDot
            if group.isEmpty then none else some group
          else none

/-- `re.search` for the fixed pattern `<key>\s*=\s*([\d.]+)`: try each start
position left to right, returning the first match's captured group. -/
def searchKeyNum (key : List Char) : List Char → Option (List Char)
  | [] => matchKeyNumAt key []
  | c :: cs =>
      match matchKeyNumAt key (c :: cs) with
      | some g => some g
      | none => searchKeyNum key cs

/-- The value of a digit string, most significant first. -/
def digitsVal (l : List Char) : Nat :=
  l.foldl (fun acc c => acc * 10 + (c.toNat - '0'.toNat)) 0

/-- Python `float(s)` on a string matched by `[\d.]+` (the only strings the
code passes to it, so every character is a digit or a dot): such a string
parses iff it contains at most one `'.'` and at least one digit — e.g.
`float("1.2.3")` and `float(".")` raise `ValueError` (`none`).  The value is
kept exact in `ℚ`; the claims do not depend on binary-float rounding. -/
def pyFloat (g : List Char) : Option ℚ :=
  if 1 < g.count '.' ∨ ¬ g.any Char.isDigit then none
  else
    match g.dropWhile (fun c => c ≠ '.') with
    | [] => some (digitsVal g : ℚ)
    | _ :: frac =>
        some ((digitsVal (g.takeWhile (fun c => c ≠ '.')) : ℚ) +
          (digitsVal frac : ℚ) / 10 ^ frac.length)

/-- `float(match.group(1)) if match else None` for one pattern: `some v` is
the assigned value (`none` inside meaning no match, hence `None`); an outer
`none` is the uncaught `ValueError` from a matched but unparsable group. -/
def extractNum (key d : List Char) : Option (Option ℚ) :=
  match searchKeyNum key d with
  | none => some none
  | some g => (pyFloat g).map some

/-- The result dictionary of `read_wsi_metadata`: the filtered scalar
properties plus the extracted `mpp` and `mag` entries. -/
structure WsiMetadata where
  props : List (String × PropValue)
  mpp : Option ℚ
  mag : Option ℚ
deriving DecidableEq, Repr

/-- `read_wsi_metadata` on the raw property map read from the image file:
drop every non-scalar value, then run the `MPP` and `AppMag` regex searches
over `metadata['image-description']` and convert each matched group with
`float`, `MPP` first.  A missing `'image-description'` key raises `KeyError`
(and a non-`str` value raises `TypeError` inside `re.search`, and a matched
but unparsable group raises `ValueError` in `float`); every error path is
`none`. -/
def read_wsi_metadata (raw : List (String × PropValue)) : Option WsiMetadata :=
  match alookup (raw.filter (fun p => p.2.isScalar)) "image-description" with
  | some (.str d) =>
      match extractNum "MPP".data d.data with
      | none => none
      | some mppVal =>
          match extractNum "AppMag".data d.data with
          | none => none
          | some magVal =>
              some { props := raw.filter (fun p => p.2.isScalar)
                     mpp := mppVal
                     mag := magVal }
  | some _ => none
  | none => none

/-! ### `PngLikeReader.get_tile` (`wsi_reader.py`) -/

/-- An RGB pixel value. -/
abbrev RGB := Nat × Nat × Nat

/-- The fixed white background fill `np.full((size, size, 3), 255)` uses. -/
def whitePixel : RGB := (255, 255, 255)

/-- A raster image: `shape[0] = h` rows, `shape[1] = w` columns, indexed
`pix row col` like `array[y, x]`.  Pixels outside `[0,h) × [0,w)` are
irrelevant (numpy slicing never reads them). -/
structure Img where
  h : Nat
  w : Nat
  pix : Nat → Nat → RGB

/-- The deterministic tile-cache key `{slideId}_{level}_{x}_{y}_{size}.jpg`.
`level` is an `Int`: the file name embeds the argument as given, including a
negative level. -/
structure TileKey where
  slide : String
  level : Int
  x : Nat
  y : Nat
  size : Nat
deriving DecidableEq, Repr

/-- The state `get_tile` reads and writes: the reader's in-memory pyramid
(one raster per level, level 0 first) and the on-disk tile cache, modelled as
a map from cache-file name to the image content written there. -/
structure ReaderState where
  pyramid : List Img
  tileCache : List (TileKey × Img)

/-- Python list indexing `pyramid[level]` for an `Int` index: non-negative
indexes from the front, negative indexes from the back, out-of-range raises
`IndexError` (`none`). -/
def pyGet (l : List Img) (i : Int) : Option Img :=
  if 0 ≤ i then l.get? i.toNat
  else if -i ≤ (l.length : Int) then l.get? ((l.length : Int) + i).toNat
  else none

/-- The tile extraction and edge padding of `get_tile`: crop
`level_image[tile_y:end_y, tile_x:end_x]` with `end_x/end_y` clamped to the
level bounds; if the crop is not `size × size`, allocate a white
`size × size` tile and overwrite its top-left corner with the crop. -/
def extractTile (img : Img) (tile_x tile_y size : Nat) : Img :=
  let end_x := min (tile_x + size) img.w
  let end_y := min (tile_y + size) img.h
  let th := end_y - tile_y
  let tw := end_x - tile_x
  if th = size ∧ tw = size then
    { h := size, w := size, pix := fun i j => img.pix (tile_y + i) (tile_x + j) }
  else
    { h := size, w := size,
      pix := fun i j =>
        if i < th ∧ j < tw then img.pix (tile_y + i) (tile_x + j)
        else whitePixel }

/-- `PngLikeReader.get_tile` on an already-opened reader (`slide_info` set,
`pyramid` built).  Returns the content of the cache file whose path the code
returns, plus the new state: cache-first and unconditional on a hit; else
guard `level >= len(pyramid)`, index the pyramid (Python semantics, a raised
`IndexError` is caught by the surrounding `try` and yields `None`), guard
`tile_x >= level_width or tile_y >= level_height`, then extract, pad, persist
under the key and return. -/
def getTile (s : ReaderState) (slide : String) (level : Int) (x y size : Nat) :
    Option Img × ReaderState :=
  match alookup s.tileCache ⟨slide, level, x, y, size⟩ with
  | some t => (some t, s)
  | none =>
      if (s.pyramid.length : Int) ≤ level then (none, s)
      else
        match pyGet s.pyramid level with
        | none => (none, s)
        | some level_image =>
            if level_image.w ≤ x * size ∨ level_image.h ≤ y * size then (none, s)
            else
              (some (extractTile level_image (x * size) (y * size) size),
               { s with tileCache :=
                  (⟨slide, level, x, y, size⟩,
                   extractTile level_image (x * size) (y * size) size) ::
                    s.tileCache })

/-- A client operation on the cache. -/
inductive CacheOp
  | opGet (fp : String)
  | opAdd (fp : String)
deriving DecidableEq, Repr

/-- One operation, keeping only the resulting cache state. -/
def LRUReaderCache.step (c : LRUReaderCache) : CacheOp → Option LRUReaderCache
  | .opGet fp => some (c.get fp).2
  | .opAdd fp => (c.add fp).map (·.2)

/-- Run a sequence of operations. -/
def LRUReaderCache.run (c : LRUReaderCache) : List CacheOp → Option LRUReaderCache
  | [] => some c
  | op :: ops =>
      match c.step op with
      | none => none
      | some c' => c'.run ops

/-- The cached keys, least-recently-used first. -/
def LRUReaderCache.keys (c : LRUReaderCache) : List String :=
  c.cache.map (·.1)

/-- The most-recently-used key, if any. -/
def LRUReaderCache.lastKey (c : LRUReaderCache) : Option String :=
  c.keys.getLast?

/-! ### LRU cache lemmas -/

lemma alookup_some_filter_length {α β : Type} [DecidableEq α]
    (l : List (α × β)) (a : α) (r : β) (h : alookup l a = some r) :
    (l.filter (fun p => p.1 ≠ a)).length + 1 ≤ l.length := by
  induction l with
  | nil => simp [alookup] at h
  | cons p t ih =>
      obtain ⟨k, v⟩ := p
      by_cases hk : k = a
      · subst hk
        have hfc : ((k, v) :: t).filter (fun p => p.1 ≠ k) =
            t.filter (fun p => p.1 ≠ k) := by
          simp [List.filter_cons]
        rw [hfc]
        exact Nat.succ_le_succ (List.length_filter_le _ t)
      · simp only [alookup, if_neg hk] at h
        have hfc : ((k, v) :: t).filter (fun p => p.1 ≠ a) =
            (k, v) :: t.filter (fun p => p.1 ≠ a) := by
          simp [List.filter_cons, hk]
        rw [hfc]
        simpa using Nat.succ_le_succ (ih h)

lemma get_snd_cache_length (c : LRUReaderCache) (fp : String) :
    (c.get fp).2.cache.length ≤ c.cache.length := by
  unfold LRUReaderCache.get
  cases h : alookup c.cache fp with
  | none => simp
  | some r =>
      simpa [moveToEnd] using alookup_some_filter_length c.cache fp r h

lemma get_max_size (c : LRUReaderCache) (fp : String) :
    (c.get fp).2.max_size = c.max_size := by
  unfold LRUReaderCache.get
  cases alookup c.cache fp <;> rfl

lemma get_hit_lastKey (c : LRUReaderCache) (fp : String)
    (h : (c.get fp).1.isSome) : (c.get fp).2.lastKey = some fp := by
  unfold LRUReaderCache.get at *
  cases halo : alookup c.cache fp with
  | none => rw [halo] at h; simp at h
  | some r =>
      simp [LRUReaderCache.lastKey, LRUReaderCache.keys, moveToEnd]

lemma add_some_max_size (c : LRUReaderCache) (fp : String) (r : Reader)
    (c' : LRUReaderCache) (h : c.add fp = some (r, c')) :
    c'.max_size = c.max_size := by
  unfold LRUReaderCache.add at h
  cases halo : alookup c.cache fp with
  | some r₀ =>
      rw [halo] at h
      cases hg : c.get fp with
      | mk o c₂ =>
          rw [hg] at h
          cases o with
          | none => simp at h
          | some r₂ =>
              simp only [Option.some.injEq, Prod.mk.injEq] at h
              have : c₂ = c' := h.2
              subst this
              have := get_max_size c fp
              rw [hg] at this
              exact this
  | none =>
      rw [halo] at h
      by_cases hcap : c.max_size ≤ (c.cache.length : Int)
      · rw [if_pos hcap] at h
        cases hc : c.cache with
        | nil => rw [hc] at h; simp at h
        | cons hd rest =>
            rw [hc] at h
            simp only [Option.some.injEq, Prod.mk.injEq] at h
            rw [← h.2]
      · rw [if_neg hcap] at h
        simp only [Option.some.injEq, Prod.mk.injEq] at h
        rw [← h.2]

lemma add_some_length (c : LRUReaderCache) (fp : String) (r : Reader)
    (c' : LRUReaderCache) (hinv : (c.cache.length : Int) ≤ c.max_size)
    (h : c.add fp = some (r, c')) :
    (c'.cache.length : Int) ≤ c.max_size := by
  unfold LRUReaderCache.add at h
  cases halo : alookup c.cache fp with
  | some r₀ =>
      rw [halo] at h
      cases hg : c.get fp with
      | mk o c₂ =>
          rw [hg] at h
          cases o with
          | none => simp at h
          | some r₂ =>
              simp only [Option.some.injEq, Prod.mk.injEq] at h
              have hc' : c₂ = c' := h.2
              subst hc'
              have hlen := get_snd_cache_length c fp
              rw [hg] at hlen
              exact le_trans (by exact_mod_cast hlen) hinv
  | none =>
      rw [halo] at h
      by_cases hcap : c.max_size ≤ (c.cache.length : Int)
      · rw [if_pos hcap] at h
        cases hc : c.cache with
        | nil => rw [hc] at h; simp at h
        | cons hd rest =>
            rw [hc] at h
            simp only [Option.some.injEq, Prod.mk.injEq] at h
            rw [← h.2]
            simp only [List.length_append, List.length_singleton]
            have : rest.length + 1 = c.cache.length := by rw [hc]; simp
            rw [this]
            exact hinv
      · rw [if_neg hcap] at h
        simp only [Option.some.injEq, Prod.mk.injEq] at h
        rw [← h.2]
        simp only [List.length_append, List.length_singleton]
        push_cast
        omega

lemma add_some_lastKey (c : LRUReaderCache) (fp : String) (r : Reader)
    (c' : LRUReaderCache) (h : c.add fp = some (r, c')) :
    c'.lastKey = some fp := by
  unfold LRUReaderCache.add at h
  cases halo : alookup c.cache fp with
  | some r₀ =>
      rw [halo] at h
      cases hg : c.get fp with
      | mk o c₂ =>
          rw [hg] at h
          cases o with
          | none => simp at h
          | some r₂ =>
              simp only [Option.some.injEq, Prod.mk.injEq] at h
              have hc' : c₂ = c' := h.2
              subst hc'
              have hsome : (c.get fp).1.isSome := by rw [hg]; rfl
              have := get_hit_lastKey c fp hsome
              rw [hg] at this
              exact this
  | none =>
      rw [halo] at h
      by_cases hcap : c.max_size ≤ (c.cache.length : Int)
      · rw [if_pos hcap] at h
        cases hc : c.cache with
        | nil => rw [hc] at h; simp at h
        | cons hd rest =>
            rw [hc] at h
            simp only [Option.some.injEq, Prod.mk.injEq] at h
            rw [← h.2]
            simp [LRUReaderCache.lastKey, LRUReaderCache.keys]
      · rw [if_neg hcap] at h
        simp only [Option.some.injEq, Prod.mk.injEq] at h
        rw [← h.2]
        simp [LRUReaderCache.lastKey, LRUReaderCache.keys]

lemma step_some_inv (c c' : LRUReaderCache) (op : CacheOp)
    (hinv : (c.cache.length : Int) ≤ c.max_size) (h : c.step op = some c') :
    (c'.cache.length : Int) ≤ c'.max_size ∧ c'.max_size = c.max_size := by
  cases op with
  | opGet fp =>
      simp only [LRUReaderCache.step, Option.some.injEq] at h
      subst h
      refine ⟨?_, get_max_size c fp⟩
      rw [get_max_size c fp]
      exact le_trans (by exact_mod_cast get_snd_cache_length c fp) hinv
  | opAdd fp =>
      simp only [LRUReaderCache.step, Option.map_eq_some'] at h
      obtain ⟨⟨r, c₂⟩, hadd, hc₂⟩ := h
      subst hc₂
      have hms := add_some_max_size c fp r c₂ hadd
      exact ⟨by rw [hms]; exact add_some_length c fp r c₂ hinv hadd, hms⟩

lemma run_some_inv (ops : List CacheOp) :
    ∀ c c' : LRUReaderCache, (c.cache.length : Int) ≤ c.max_size →
      c.run ops = some c' →
      (c'.cache.length : Int) ≤ c'.max_size ∧ c'.max_size = c.max_size := by
  induction ops with
  | nil =>
      intro c c' hinv h
      simp only [LRUReaderCache.run, Option.some.injEq] at h
      subst h
      exact ⟨hinv, rfl⟩
  | cons op ops ih =>
      intro c c' hinv h
      simp only [LRUReaderCache.run] at h
      cases hstep : c.step op with
      | none => rw [hstep] at h; simp at h
      | some c₁ =>
          rw [hstep] at h
          obtain ⟨h₁, h₂⟩ := step_some_inv c c₁ op hinv hstep
          obtain ⟨h₃, h₄⟩ := ih c₁ c' h₁ h
          exact ⟨h₃, h₄.trans h₂⟩

lemma run_append (l₁ l₂ : List CacheOp) :
    ∀ c : LRUReaderCache, c.run (l₁ ++ l₂) =
      match c.run l₁ with
      | none => none
      | some c₁ => c₁.run l₂ := by
  induction l₁ with
  | nil => intro c; rfl
  | cons op ops ih =>
      intro c
      simp only [List.cons_append, LRUReaderCache.run]
      cases c.step op with
      | none => rfl
      | some c₁ => exact ih c₁

lemma step_some_lastKey (c c' : LRUReaderCache) (op : CacheOp) (fp : String)
    (h : c.step op = some c')
    (hop : op = CacheOp.opAdd fp ∨ (op = CacheOp.opGet fp ∧ (c.get fp).1.isSome)) :
    c'.lastKey = some fp := by
  rcases hop with hop | ⟨hop, hhit⟩
  · subst hop
    simp only [LRUReaderCache.step, Option.map_eq_some'] at h
    obtain ⟨⟨r, c₂⟩, hadd, hc₂⟩ := h
    subst hc₂
    exact add_some_lastKey c fp r c₂ hadd
  · subst hop
    simp only [LRUReaderCache.step, Option.some.injEq] at h
    subst h
    exact get_hit_lastKey c fp hhit

/-! ### Pyramid lemmas -/

lemma natClog2_eval (n m : Nat) (h1 : n ≤ 2 ^ m) (h2 : m = 0 ∨ 2 ^ (m - 1) < n) :
    Nat.clog 2 n = m := by
  have hle : Nat.clog 2 n ≤ m := (Nat.le_pow_iff_clog_le one_lt_two).1 h1
  rcases h2 with h2 | h2
  · omega
  · have : m - 1 < Nat.clog 2 n := (Nat.pow_lt_iff_lt_clog one_lt_two).1 h2
    omega

lemma levelCountOf_100_2000_512 : levelCountOf 100 2000 512 = 3 := by
  unfold levelCountOf
  have hmax : (max (100 : ℕ) 2000) = 2000 := by norm_num
  rw [hmax]
  have hq : (1 : ℚ) ≤ ((2000 : ℕ) : ℚ) / ((512 : ℕ) : ℚ) := by norm_num
  rw [Int.clog_of_one_le_right _ hq]
  have hceil : ⌈((2000 : ℕ) : ℚ) / ((512 : ℕ) : ℚ)⌉₊ = 4 := by
    rw [Nat.ceil_eq_iff (by norm_num)]
    constructor <;> norm_num
  rw [hceil]
  rw [natClog2_eval 4 2 (by norm_num) (Or.inr (by norm_num))]
  decide

lemma levelCountOf_100_100_512 : levelCountOf 100 100 512 = -1 := by
  unfold levelCountOf
  have hmax : (max (100 : ℕ) 100) = 100 := by norm_num
  rw [hmax]
  have hq : ((100 : ℕ) : ℚ) / ((512 : ℕ) : ℚ) ≤ 1 := by norm_num
  rw [Int.clog_of_right_le_one _ hq]
  have hinv : (((100 : ℕ) : ℚ) / ((512 : ℕ) : ℚ))⁻¹ = 128 / 25 := by norm_num
  rw [hinv]
  have hfloor : ⌊(128 / 25 : ℚ)⌋₊ = 5 := by
    rw [Nat.floor_eq_iff (by norm_num)]
    constructor <;> norm_num
  rw [hfloor]
  have hlog : Nat.log 2 5 = 2 :=
    Nat.log_eq_of_pow_le_of_lt_pow (by norm_num) (by norm_num)
  rw [hlog]
  norm_num

lemma buildLevels_length (m : Nat) :
    ∀ n lvl w h, (buildLevels m n lvl w h).length = n := by
  intro n
  induction n with
  | zero => intro lvl w h; rfl
  | succ n ih =>
      intro lvl w h
      simp only [buildLevels, List.length_cons, ih]

lemma buildLevels_dims_get? (m : Nat) :
    ∀ n lvl w h i, i < n →
      ((buildLevels m n lvl w h).map (·.1)).get? i =
        some ((halveClamp m)^[i] w, (halveClamp m)^[i] h) := by
  intro n
  induction n with
  | zero => intro lvl w h i hi; omega
  | succ n ih =>
      intro lvl w h i hi
      cases i with
      | zero => simp [buildLevels]
      | succ i =>
          have hi' : i < n := by omega
          simp only [buildLevels, List.map_cons, List.get?_cons_succ,
            Function.iterate_succ_apply]
          exact ih (lvl + 1) (halveClamp m w) (halveClamp m h) i hi'

lemma buildLevels_downs_get? (m : Nat) :
    ∀ n lvl w h i, i < n →
      ((buildLevels m n lvl w h).map (·.2)).get? i = some ((2 : ℚ) ^ (lvl + i)) := by
  intro n
  induction n with
  | zero => intro lvl w h i hi; omega
  | succ n ih =>
      intro lvl w h i hi
      cases i with
      | zero => simp [buildLevels]
      | succ i =>
          have hi' : i < n := by omega
          simp only [buildLevels, List.map_cons, List.get?_cons_succ]
          rw [ih (lvl + 1) (halveClamp m w) (halveClamp m h) i hi']
          congr 2
          omega

lemma halveClamp_le (m w : Nat) (hw : m ≤ w) : halveClamp m w ≤ w := by
  unfold halveClamp
  exact max_le (Nat.div_le_self w 2) hw

lemma halveClamp_ge (m w : Nat) : m ≤ halveClamp m w :=
  le_max_right _ _

lemma halveClamp_iterate_le (m : Nat) :
    ∀ k w, w ≤ m * 2 ^ k → (halveClamp m)^[k] w ≤ m := by
  intro k
  induction k with
  | zero =>
      intro w hw
      simpa using hw
  | succ k ih =>
      intro w hw
      rw [Function.iterate_succ_apply]
      apply ih
      unfold halveClamp
      apply max_le
      · have h2 : w / 2 ≤ m * 2 ^ (k + 1) / 2 := Nat.div_le_div_right hw
        have h3 : m * 2 ^ (k + 1) / 2 = m * 2 ^ k := by
          rw [pow_succ, ← Nat.mul_assoc]
          exact Nat.mul_div_cancel _ (by norm_num)
        omega
      · exact Nat.le_mul_of_pos_right m (Nat.pos_pow_of_pos k (by norm_num))

lemma halveClamp_iterate_ge (m w : Nat) (hw : m ≤ w) :
    ∀ i, m ≤ (halveClamp m)^[i] w := by
  intro i
  cases i with
  | zero => simpa using hw
  | succ i =>
      rw [Function.iterate_succ_apply']
      exact halveClamp_ge m _

lemma halveClamp_iterate_succ_le (m w : Nat) (hw : m ≤ w) (i : Nat) :
    (halveClamp m)^[i + 1] w ≤ (halveClamp m)^[i] w := by
  rw [Function.iterate_succ_apply']
  exact halveClamp_le m _ (halveClamp_iterate_ge m w hw i)

/-! ### Tile lemmas -/

lemma alookup_cons_self {α β : Type} [DecidableEq α] (a : α) (v : β)
    (l : List (α × β)) : alookup ((a, v) :: l) a = some v := by
  simp [alookup]

lemma pyGet_lt_length (l : List Img) (i : Int) (img : Img)
    (h : pyGet l i = some img) : i < (l.length : Int) := by
  unfold pyGet at h
  by_cases h0 : 0 ≤ i
  · rw [if_pos h0] at h
    have hlt : i.toNat < l.length := by
      by_contra hge
      rw [List.get?_eq_none.2 (by omega)] at h
      exact Option.noConfusion h
    omega
  · omega

lemma pyGet_of_nonneg (l : List Img) (i : Int) (h0 : 0 ≤ i) :
    pyGet l i = l.get? i.toNat := by
  unfold pyGet
  rw [if_pos h0]

lemma pyGet_of_neg (l : List Img) (i : Int) (hneg : i < 0)
    (hge : -i ≤ (l.length : Int)) :
    pyGet l i = l.get? ((l.length : Int) + i).toNat := by
  unfold pyGet
  rw [if_neg (by omega), if_pos hge]

lemma getTile_hit (s : ReaderState) (slide : String) (level : Int)
    (x y size : Nat) (t : Img)
    (h : alookup s.tileCache ⟨slide, level, x, y, size⟩ = some t) :
    getTile s slide level x y size = (some t, s) := by
  unfold getTile
  rw [h]

lemma getTile_persists (s : ReaderState) (slide : String) (level : Int)
    (x y size : Nat) (t : Img) (s₁ : ReaderState)
    (h : getTile s slide level x y size = (some t, s₁)) :
    alookup s₁.tileCache ⟨slide, level, x, y, size⟩ = some t := by
  unfold getTile at h
  split at h
  case h_1 t₀ hlk =>
      rw [Prod.mk.injEq] at h
      rw [← h.2, hlk, h.1]
  case h_2 hlk =>
      split at h
      · rw [Prod.mk.injEq] at h
        exact Option.noConfusion h.1
      · split at h
        case h_1 =>
            rw [Prod.mk.injEq] at h
            exact Option.noConfusion h.1
        case h_2 img hpg =>
            split at h
            · rw [Prod.mk.injEq] at h
              exact Option.noConfusion h.1
            · rw [Prod.mk.injEq] at h
              obtain ⟨ht, hs⟩ := h
              rw [← hs]
              simp only [alookup_cons_self]
              exact congrArg some (Option.some.injEq _ _ ▸ ht)

lemma levelCountOf_spec (w h m : Nat) (hm : 0 < m) (hmax : m ≤ max w h) :
    ∃ K : Nat, levelCountOf w h m = (K : ℤ) + 1 ∧
      (levelCountOf w h m).toNat = K + 1 ∧
      (max w h : ℕ) ≤ m * 2 ^ K := by
  have hq : (1 : ℚ) ≤ ((max w h : ℕ) : ℚ) / ((m : ℕ) : ℚ) := by
    rw [le_div_iff₀ (by exact_mod_cast hm), one_mul]
    exact_mod_cast hmax
  refine ⟨Nat.clog 2 ⌈((max w h : ℕ) : ℚ) / ((m : ℕ) : ℚ)⌉₊, ?_, ?_, ?_⟩
  · unfold levelCountOf
    rw [Int.clog_of_one_le_right _ hq]
  · unfold levelCountOf
    rw [Int.clog_of_one_le_right _ hq]
    omega
  · have h1 : ((max w h : ℕ) : ℚ) / ((m : ℕ) : ℚ) ≤
        (⌈((max w h : ℕ) : ℚ) / ((m : ℕ) : ℚ)⌉₊ : ℚ) := Nat.le_ceil _
    have h2 : (⌈((max w h : ℕ) : ℚ) / ((m : ℕ) : ℚ)⌉₊ : ℕ) ≤
        2 ^ Nat.clog 2 ⌈((max w h : ℕ) : ℚ) / ((m : ℕ) : ℚ)⌉₊ :=
      Nat.le_pow_clog one_lt_two _
    have h3 : ((max w h : ℕ) : ℚ) / ((m : ℕ) : ℚ) ≤
        ((2 ^ Nat.clog 2 ⌈((max w h : ℕ) : ℚ) / ((m : ℕ) : ℚ)⌉₊ : ℕ) : ℚ) :=
      le_trans h1 (by exact_mod_cast h2)
    rw [div_le_iff₀ (by exact_mod_cast hm)] at h3
    have h4 : ((max w h : ℕ) : ℚ) ≤
        (((2 ^ Nat.clog 2 ⌈((max w h : ℕ) : ℚ) / ((m : ℕ) : ℚ)⌉₊) * m : ℕ) : ℚ) := by
      rw [Nat.cast_mul]
      exact h3
    have h5 : (max w h : ℕ) ≤
        2 ^ Nat.clog 2 ⌈((max w h : ℕ) : ℚ) / ((m : ℕ) : ℚ)⌉₊ * m := by
      exact_mod_cast h4
    rw [Nat.mul_comm]
    exact h5

end WSIViewer

namespace WSIViewer

/-- C1: starting from an empty cache with `max_size=2`, adding A, B, A, C
leaves exactly the keys [A, C] in recency order (B was evicted as the
least-recently-used entry), and afterwards `get A` / `get C` return the cached
readers while `get B` returns `None`. -/
theorem c1_lru_trace :
    ((LRUReaderCache.init 2).run
        [.opAdd "A", .opAdd "B", .opAdd "A", .opAdd "C"]).map
        (fun c => (c.keys, (c.get "A").1, (c.get "B").1, (c.get "C").1)) =
      some (["A", "C"], some ⟨"A"⟩, none, some ⟨"C"⟩) := by
  decide

/-- C2: for every sequence of `get`/`add` operations on a cache constructed
with capacity `max_size`, after each completed operation the number of cached
entries is at most `max_size`, and the most-recently-used entry is last: when
the final operation was an `add`, or a `get` that hit, its key is the last
entry of the resulting order. -/
theorem c2_lru_invariant (maxSize : Int) (h0 : 0 ≤ maxSize) (ops : List CacheOp)
    (c' : LRUReaderCache)
    (hrun : (LRUReaderCache.init maxSize).run ops = some c') :
    (c'.cache.length : Int) ≤ maxSize ∧
    ∀ ops₀ op c₀ fp, ops = ops₀ ++ [op] →
      (LRUReaderCache.init maxSize).run ops₀ = some c₀ →
      (op = CacheOp.opAdd fp ∨ (op = CacheOp.opGet fp ∧ (c₀.get fp).1.isSome)) →
      c'.lastKey = some fp := by
  have hinit : ((LRUReaderCache.init maxSize).cache.length : Int) ≤
      (LRUReaderCache.init maxSize).max_size := by
    simp [LRUReaderCache.init, h0]
  obtain ⟨hlen, hms⟩ := run_some_inv ops _ c' hinit hrun
  constructor
  · rw [hms] at hlen; exact hlen
  · intro ops₀ op c₀ fp hsplit hrun₀ hop
    subst hsplit
    rw [run_append ops₀ [op] _, hrun₀] at hrun
    simp only [LRUReaderCache.run] at hrun
    cases hstep : c₀.step op with
    | none => rw [hstep] at hrun; simp at hrun
    | some c₁ =>
        rw [hstep] at hrun
        simp only [LRUReaderCache.run, Option.some.injEq] at hrun
        subst hrun
        exact step_some_lastKey c₀ _ op fp hstep hop

/-- Witness for C2 at `max_size = 2` and the operation sequence
`[add A, add B, get A]`. -/
theorem c2_lru_invariant_witness :
    0 ≤ (2 : Int) ∧
    (LRUReaderCache.init 2).run [.opAdd "A", .opAdd "B", .opGet "A"] =
      some ⟨2, [("B", ⟨"B"⟩), ("A", ⟨"A"⟩)]⟩ ∧
    ((((⟨2, [("B", ⟨"B"⟩), ("A", ⟨"A"⟩)]⟩ : LRUReaderCache).cache.length : Int) ≤ 2) ∧
      ∀ ops₀ op c₀ fp,
        ([.opAdd "A", .opAdd "B", .opGet "A"] : List CacheOp) = ops₀ ++ [op] →
        (LRUReaderCache.init 2).run ops₀ = some c₀ →
        (op = CacheOp.opAdd fp ∨ (op = CacheOp.opGet fp ∧ (c₀.get fp).1.isSome)) →
        (⟨2, [("B", ⟨"B"⟩), ("A", ⟨"A"⟩)]⟩ : LRUReaderCache).lastKey = some fp) :=
  ⟨by decide, by decide,
   c2_lru_invariant 2 (by decide) [.opAdd "A", .opAdd "B", .opGet "A"] _ (by decide)⟩

/-- C9 counterexample: constructing an `LRUReaderCache` with a capacity below 1
does not fail with a configuration error — `__init__` performs no validation,
so `max_size = 0` (or `-3`) is accepted and a fully-formed cache object is
returned. -/
theorem c9_counterexample :
    (LRUReaderCache.init 0).max_size = 0 ∧
    (LRUReaderCache.init 0).cache = [] ∧
    (LRUReaderCache.init (-3)).max_size = -3 ∧
    ((LRUReaderCache.init 0).get "A").1 = none := by
  decide

/-- C9 amended: construction accepts any capacity without validation (there is
no `ConfigError` path); when no capacity is given the default is 5; and the
chosen capacity is fixed for the lifetime of the cache (`get` and `add` never
change `max_size`). -/
theorem c9_capacity_default (max_size : Int) (c : LRUReaderCache) (fp : String) :
    (LRUReaderCache.init max_size).max_size = max_size ∧
    LRUReaderCache.initDefault.max_size = 5 ∧
    (c.get fp).2.max_size = c.max_size ∧
    (∀ r c', c.add fp = some (r, c') → c'.max_size = c.max_size) :=
  ⟨rfl, rfl, get_max_size c fp, fun r c' h => add_some_max_size c fp r c' h⟩

/-- Witness for C9's amended theorem at `max_size = 0`, a concrete cache and
key, with the `add`-preservation conjunct instantiated on a successful add. -/
theorem c9_capacity_default_witness :
    ((LRUReaderCache.init 0).max_size = 0 ∧
      LRUReaderCache.initDefault.max_size = 5 ∧
      ((⟨7, [("A", ⟨"A"⟩)]⟩ : LRUReaderCache).get "A").2.max_size =
        (⟨7, [("A", ⟨"A"⟩)]⟩ : LRUReaderCache).max_size ∧
      (∀ r c', (⟨7, [("A", ⟨"A"⟩)]⟩ : LRUReaderCache).add "A" = some (r, c') →
        c'.max_size = (⟨7, [("A", ⟨"A"⟩)]⟩ : LRUReaderCache).max_size)) ∧
    (⟨7, [("A", ⟨"A"⟩)]⟩ : LRUReaderCache).add "A" =
      some (⟨"A"⟩, ⟨7, [("A", ⟨"A"⟩)]⟩) :=
  ⟨c9_capacity_default 0 ⟨7, [("A", ⟨"A"⟩)]⟩ "A", by decide⟩

/-- C3 counterexample: for the successfully-opened 100 × 2000 source image with
`min_dimension = 512`, the generated `level_dimensions` is not monotonically
non-increasing in the width component: level 0 has width 100 but level 1 has
width 512 (the `max(current_width // 2, min_dimension)` clamp raises a
dimension that is already below the minimum). -/
theorem c3_counterexample :
    (openSlidePng (some (100, 2000)) 512).1 = true ∧
    (buildPyramidInfo 100 2000 512).level_dimensions.get? 0 = some (100, 2000) ∧
    (buildPyramidInfo 100 2000 512).level_dimensions.get? 1 = some (512, 1000) ∧
    ¬ (512 ≤ 100) := by
  refine ⟨rfl, ?_, ?_, by decide⟩ <;>
    simp [buildPyramidInfo, levelCountOf_100_2000_512, buildLevels, halveClamp]

/-- C3 amended: for every successfully opened image both of whose dimensions
are at least `min_dimension`, the generated `level_dimensions` sequence is
monotonically non-increasing in both components, the per-level downsample
factor equals `2 ^ level`, and the number of generated levels is finite and
equals the stored `level_count = ⌈log₂(max(w, h) / min_dimension)⌉ + 1`
(hence is bounded by it). -/
theorem c3_pyramid_geometry (w h m : Nat) (hm : 0 < m) (hw : m ≤ w) (hh : m ≤ h) :
    (∀ i a b, (buildPyramidInfo w h m).level_dimensions.get? i = some a →
      (buildPyramidInfo w h m).level_dimensions.get? (i + 1) = some b →
      b.1 ≤ a.1 ∧ b.2 ≤ a.2) ∧
    (∀ i d, (buildPyramidInfo w h m).level_downsamples.get? i = some d →
      d = (2 : ℚ) ^ i) ∧
    ((buildPyramidInfo w h m).level_dimensions.length : Int) =
      (buildPyramidInfo w h m).level_count ∧
    (buildPyramidInfo w h m).level_count =
      Int.clog 2 (((max w h : ℕ) : ℚ) / ((m : ℕ) : ℚ)) + 1 := by
  obtain ⟨K, hlc, htoNat, hbound⟩ :=
    levelCountOf_spec w h m hm (le_trans hw (le_max_left w h))
  refine ⟨?_, ?_, ?_, rfl⟩
  · intro i a b ha hb
    have hlen : ∀ j c, (buildPyramidInfo w h m).level_dimensions.get? j = some c →
        j < (levelCountOf w h m).toNat := by
      intro j c hc
      by_contra hge
      rw [List.get?_eq_none.2 (by
        simp only [buildPyramidInfo, List.length_map, buildLevels_length]
        omega)] at hc
      exact Option.noConfusion hc
    have hi := hlen i a ha
    have hi1 := hlen (i + 1) b hb
    rw [show (buildPyramidInfo w h m).level_dimensions =
        ((buildLevels m (levelCountOf w h m).toNat 0 w h).map (·.1)) from rfl,
      buildLevels_dims_get? m _ 0 w h i hi] at ha
    rw [show (buildPyramidInfo w h m).level_dimensions =
        ((buildLevels m (levelCountOf w h m).toNat 0 w h).map (·.1)) from rfl,
      buildLevels_dims_get? m _ 0 w h (i + 1) hi1] at hb
    have ha' : a = ((halveClamp m)^[i] w, (halveClamp m)^[i] h) :=
      (Option.some.injEq _ _ ▸ ha).symm
    have hb' : b = ((halveClamp m)^[i + 1] w, (halveClamp m)^[i + 1] h) :=
      (Option.some.injEq _ _ ▸ hb).symm
    rw [ha', hb']
    exact ⟨halveClamp_iterate_succ_le m w hw i, halveClamp_iterate_succ_le m h hh i⟩
  · intro i d hd
    have hi : i < (levelCountOf w h m).toNat := by
      by_contra hge
      rw [List.get?_eq_none.2 (by
        simp only [buildPyramidInfo, List.length_map, buildLevels_length]
        omega)] at hd
      exact Option.noConfusion hd
    rw [show (buildPyramidInfo w h m).level_downsamples =
        ((buildLevels m (levelCountOf w h m).toNat 0 w h).map (·.2)) from rfl,
      buildLevels_downs_get? m _ 0 w h i hi] at hd
    have := (Option.some.injEq _ _ ▸ hd).symm
    rw [this, Nat.zero_add]
  · simp only [buildPyramidInfo, List.length_map, buildLevels_length]
    rw [htoNat, hlc]
    push_cast
    ring

/-- Witness for C3's amended theorem on a concrete 1000 × 700 image with
`min_dimension = 512`. -/
theorem c3_pyramid_geometry_witness :
    (0 < 512 ∧ 512 ≤ 1000 ∧ 512 ≤ 700) ∧
    ((∀ i a b, (buildPyramidInfo 1000 700 512).level_dimensions.get? i = some a →
      (buildPyramidInfo 1000 700 512).level_dimensions.get? (i + 1) = some b →
      b.1 ≤ a.1 ∧ b.2 ≤ a.2) ∧
    (∀ i d, (buildPyramidInfo 1000 700 512).level_downsamples.get? i = some d →
      d = (2 : ℚ) ^ i) ∧
    ((buildPyramidInfo 1000 700 512).level_dimensions.length : Int) =
      (buildPyramidInfo 1000 700 512).level_count ∧
    (buildPyramidInfo 1000 700 512).level_count =
      Int.clog 2 (((max 1000 700 : ℕ) : ℚ) / ((512 : ℕ) : ℚ)) + 1) :=
  ⟨⟨by decide, by decide, by decide⟩,
   c3_pyramid_geometry 1000 700 512 (by decide) (by decide) (by decide)⟩

/-- C8 counterexample: metadata extraction does raise.  On a property set
lacking the `'image-description'` field, `metadata['image-description']`
raises `KeyError` instead of yielding `None` for mpp/magnification; and on a
description whose matched group is not a valid float (`"MPP = 1.2.3"` —
`[\d.]+` happily matches `1.2.3`), `float(match.group(1))` raises
`ValueError`.  Both are the `none` error path of the embedding. -/
theorem c8_counterexample :
    read_wsi_metadata
      [("width", PropValue.int 100), ("height", PropValue.int 80),
       ("note", PropValue.str "hello")] = none ∧
    read_wsi_metadata
      [("image-description", PropValue.str "MPP = 1.2.3")] = none := by
  constructor <;> decide

/-- C8 amended: for every property map whose filtered scalar properties
contain a string-valued `'image-description'` in which every matched `MPP` /
`AppMag` group (if any) parses as a float, metadata extraction succeeds: all
non-scalar raw values are filtered out without error, absence of a regex
match yields `None` for mpp/magnification, and a matched group yields its
parsed value.  When the descriptive text field is absent (or not a string),
or a matched group is not float-parsable, extraction instead raises
(`KeyError`/`TypeError`/`ValueError`). -/
theorem c8_metadata (raw : List (String × PropValue)) (d : String)
    (hd : alookup (raw.filter (fun p => p.2.isScalar)) "image-description" =
      some (.str d))
    (hmpp : ∀ g, searchKeyNum "MPP".data d.data = some g →
      (pyFloat g).isSome = true)
    (hmag : ∀ g, searchKeyNum "AppMag".data d.data = some g →
      (pyFloat g).isSome = true) :
    ∃ mdata, read_wsi_metadata raw = some mdata ∧
      mdata.props = raw.filter (fun p => p.2.isScalar) ∧
      (∀ k v, (k, v) ∈ mdata.props → v.isScalar = true) ∧
      (searchKeyNum "MPP".data d.data = none → mdata.mpp = none) ∧
      (∀ g q, searchKeyNum "MPP".data d.data = some g → pyFloat g = some q →
        mdata.mpp = some q) ∧
      (searchKeyNum "AppMag".data d.data = none → mdata.mag = none) ∧
      (∀ g q, searchKeyNum "AppMag".data d.data = some g → pyFloat g = some q →
        mdata.mag = some q) := by
  have e1 : ∃ v1, extractNum "MPP".data d.data = some v1 ∧
      (searchKeyNum "MPP".data d.data = none → v1 = none) ∧
      (∀ g q, searchKeyNum "MPP".data d.data = some g → pyFloat g = some q →
        v1 = some q) := by
    cases hm : searchKeyNum "MPP".data d.data with
    | none =>
        refine ⟨none, by simp [extractNum, hm], fun _ => rfl, ?_⟩
        intro g q hg hq
        exact Option.noConfusion hg
    | some g =>
        obtain ⟨q, hq⟩ := Option.isSome_iff_exists.1 (hmpp g hm)
        refine ⟨some q, by simp [extractNum, hm, hq], ?_, ?_⟩
        · intro hc
          exact Option.noConfusion hc
        · intro g' q' hg' hq'
          injection hg' with hgg
          subst hgg
          rw [hq] at hq'
          injection hq' with hqq
          rw [hqq]
  have e2 : ∃ v2, extractNum "AppMag".data d.data = some v2 ∧
      (searchKeyNum "AppMag".data d.data = none → v2 = none) ∧
      (∀ g q, searchKeyNum "AppMag".data d.data = some g → pyFloat g = some q →
        v2 = some q) := by
    cases hm : searchKeyNum "AppMag".data d.data with
    | none =>
        refine ⟨none, by simp [extractNum, hm], fun _ => rfl, ?_⟩
        intro g q hg hq
        exact Option.noConfusion hg
    | some g =>
        obtain ⟨q, hq⟩ := Option.isSome_iff_exists.1 (hmag g hm)
        refine ⟨some q, by simp [extractNum, hm, hq], ?_, ?_⟩
        · intro hc
          exact Option.noConfusion hc
        · intro g' q' hg' hq'
          injection hg' with hgg
          subst hgg
          rw [hq] at hq'
          injection hq' with hqq
          rw [hqq]
  obtain ⟨v1, hv1, hn1, hs1⟩ := e1
  obtain ⟨v2, hv2, hn2, hs2⟩ := e2
  refine ⟨{ props := raw.filter (fun p => p.2.isScalar), mpp := v1, mag := v2 },
    ?_, rfl, ?_, hn1, hs1, hn2, hs2⟩
  · simp only [read_wsi_metadata, hd, hv1, hv2]
  · intro k v hv
    simpa using List.of_mem_filter hv

/-- Witness for C8's amended theorem on a property map with an Aperio-style
description: both patterns match and both groups parse. -/
theorem c8_metadata_witness :
    (alookup ([("image-description",
          PropValue.str "Aperio|AppMag = 40|MPP = 0.2478"),
        ("depth", PropValue.other)].filter (fun p => p.2.isScalar))
        "image-description" =
      some (.str "Aperio|AppMag = 40|MPP = 0.2478")) ∧
    (∃ mdata, read_wsi_metadata
        [("image-description", PropValue.str "Aperio|AppMag = 40|MPP = 0.2478"),
         ("depth", PropValue.other)] = some mdata ∧
      mdata.props = [("image-description",
          PropValue.str "Aperio|AppMag = 40|MPP = 0.2478"),
        ("depth", PropValue.other)].filter (fun p => p.2.isScalar) ∧
      (∀ k v, (k, v) ∈ mdata.props → v.isScalar = true) ∧
      (searchKeyNum "MPP".data "Aperio|AppMag = 40|MPP = 0.2478".data = none →
        mdata.mpp = none) ∧
      (∀ g q, searchKeyNum "MPP".data "Aperio|AppMag = 40|MPP = 0.2478".data =
          some g → pyFloat g = some q → mdata.mpp = some q) ∧
      (searchKeyNum "AppMag".data "Aperio|AppMag = 40|MPP = 0.2478".data =
          none → mdata.mag = none) ∧
      (∀ g q, searchKeyNum "AppMag".data
          "Aperio|AppMag = 40|MPP = 0.2478".data = some g →
        pyFloat g = some q → mdata.mag = some q)) :=
  ⟨by decide,
   c8_metadata _ "Aperio|AppMag = 40|MPP = 0.2478" (by decide)
     (by
       intro g hg
       rw [show searchKeyNum "MPP".data "Aperio|AppMag = 40|MPP = 0.2478".data =
           some "0.2478".data from by decide] at hg
       injection hg with h
       subst h
       decide)
     (by
       intro g hg
       rw [show searchKeyNum "AppMag".data
           "Aperio|AppMag = 40|MPP = 0.2478".data =
           some "40".data from by decide] at hg
       injection hg with h
       subst h
       decide)⟩

/-- C4 counterexample: a 100 × 100 source image with `min_dimension = 512` is
opened successfully (`open_slide` returns `True`), yet the computed
`level_count` is `-1` and the generated levels list is empty — there is no
level 0 at all. -/
theorem c4_counterexample :
    (openSlidePng (some (100, 100)) 512).1 = true ∧
    ((openSlidePng (some (100, 100)) 512).2.map SlideInfo.level_dimensions) =
      some [] ∧
    ((openSlidePng (some (100, 100)) 512).2.map SlideInfo.level_count) =
      some (-1) := by
  refine ⟨rfl, ?_, ?_⟩ <;>
    simp [openSlidePng, buildPyramidInfo, levelCountOf_100_100_512, buildLevels]

/-- C4 amended: for every source image successfully opened whose larger
dimension is at least `min_dimension`, the levels list is non-empty, level 0
has downsample 1 and dimensions equal to the source image, each subsequent
level's downsample strictly increases, and the final level's dimensions are
both at or below `min_dimension` (the loop's termination point). -/
theorem c4_open_slide_levels (w h m : Nat) (hm : 0 < m) (hmax : m ≤ max w h) :
    (openSlidePng (some (w, h)) m).1 = true ∧
    ∀ info, (openSlidePng (some (w, h)) m).2 = some info →
      info.level_dimensions ≠ [] ∧
      info.level_dimensions.get? 0 = some (w, h) ∧
      info.level_downsamples.get? 0 = some 1 ∧
      (∀ i a b, info.level_downsamples.get? i = some a →
        info.level_downsamples.get? (i + 1) = some b → a < b) ∧
      ∀ a, info.level_dimensions.get? (info.level_dimensions.length - 1) = some a →
        a.1 ≤ m ∧ a.2 ≤ m := by
  obtain ⟨K, hlc, htoNat, hbound⟩ := levelCountOf_spec w h m hm hmax
  refine ⟨rfl, ?_⟩
  intro info hinfo
  have hinfo' : info = buildPyramidInfo w h m := by
    simpa [openSlidePng] using hinfo.symm
  subst hinfo'
  have hlenn : (buildPyramidInfo w h m).level_dimensions.length = K + 1 := by
    simp only [buildPyramidInfo, List.length_map, buildLevels_length]
    exact htoNat
  refine ⟨?_, ?_, ?_, ?_, ?_⟩
  · intro hnil
    rw [hnil] at hlenn
    simp at hlenn
  · rw [show (buildPyramidInfo w h m).level_dimensions =
        ((buildLevels m (levelCountOf w h m).toNat 0 w h).map (·.1)) from rfl,
      buildLevels_dims_get? m _ 0 w h 0 (by omega)]
    simp
  · rw [show (buildPyramidInfo w h m).level_downsamples =
        ((buildLevels m (levelCountOf w h m).toNat 0 w h).map (·.2)) from rfl,
      buildLevels_downs_get? m _ 0 w h 0 (by omega)]
    norm_num
  · intro i a b ha hb
    have hi1 : i + 1 < (levelCountOf w h m).toNat := by
      by_contra hge
      rw [List.get?_eq_none.2 (by
        simp only [buildPyramidInfo, List.length_map, buildLevels_length]
        omega)] at hb
      exact Option.noConfusion hb
    rw [show (buildPyramidInfo w h m).level_downsamples =
        ((buildLevels m (levelCountOf w h m).toNat 0 w h).map (·.2)) from rfl,
      buildLevels_downs_get? m _ 0 w h i (by omega)] at ha
    rw [show (buildPyramidInfo w h m).level_downsamples =
        ((buildLevels m (levelCountOf w h m).toNat 0 w h).map (·.2)) from rfl,
      buildLevels_downs_get? m _ 0 w h (i + 1) hi1] at hb
    have ha' : a = (2 : ℚ) ^ (0 + i) := (Option.some.injEq _ _ ▸ ha).symm
    have hb' : b = (2 : ℚ) ^ (0 + (i + 1)) := (Option.some.injEq _ _ ▸ hb).symm
    rw [ha', hb']
    exact pow_lt_pow_right₀ one_lt_two (by omega)
  · intro a ha
    rw [hlenn] at ha
    have hKlt : K < (levelCountOf w h m).toNat := by omega
    rw [show (buildPyramidInfo w h m).level_dimensions =
        ((buildLevels m (levelCountOf w h m).toNat 0 w h).map (·.1)) from rfl,
      show K + 1 - 1 = K from rfl,
      buildLevels_dims_get? m _ 0 w h K hKlt] at ha
    have ha' : a = ((halveClamp m)^[K] w, (halveClamp m)^[K] h) :=
      (Option.some.injEq _ _ ▸ ha).symm
    rw [ha']
    constructor
    · exact halveClamp_iterate_le m K w (le_trans (le_max_left w h) hbound)
    · exact halveClamp_iterate_le m K h (le_trans (le_max_right w h) hbound)

/-- C5: once a `get_tile` call has returned a tile (computing and persisting
it on a miss, or serving it on a hit), the tile is present in the cache under
the deterministic key, a second call with the identical key returns the
byte-identical tile with the state unchanged, and the second call never
consults the pyramid: its result is the same for every replacement pyramid. -/
theorem c5_tile_cache (s : ReaderState) (slide : String) (level : Int)
    (x y size : Nat) (t : Img) (s₁ : ReaderState)
    (h : getTile s slide level x y size = (some t, s₁)) :
    alookup s₁.tileCache ⟨slide, level, x, y, size⟩ = some t ∧
    getTile s₁ slide level x y size = (some t, s₁) ∧
    ∀ pyr, getTile { s₁ with pyramid := pyr } slide level x y size =
      (some t, { s₁ with pyramid := pyr }) := by
  have hp := getTile_persists s slide level x y size t s₁ h
  exact ⟨hp, getTile_hit _ _ _ _ _ _ _ hp,
    fun pyr => getTile_hit _ _ _ _ _ _ _ hp⟩

/-- Witness for C5: a first call on a one-level pyramid with an empty cache
computes and persists the tile. -/
theorem c5_tile_cache_witness :
    getTile ⟨[⟨1, 1, fun _ _ => (9, 9, 9)⟩], []⟩ "s" 0 0 0 1 =
      (some (extractTile ⟨1, 1, fun _ _ => (9, 9, 9)⟩ 0 0 1),
       ⟨[⟨1, 1, fun _ _ => (9, 9, 9)⟩],
        [(⟨"s", 0, 0, 0, 1⟩, extractTile ⟨1, 1, fun _ _ => (9, 9, 9)⟩ 0 0 1)]⟩) ∧
    (alookup (ReaderState.mk [⟨1, 1, fun _ _ => (9, 9, 9)⟩]
          [(⟨"s", 0, 0, 0, 1⟩, extractTile ⟨1, 1, fun _ _ => (9, 9, 9)⟩ 0 0 1)]).tileCache
        ⟨"s", 0, 0, 0, 1⟩ = some (extractTile ⟨1, 1, fun _ _ => (9, 9, 9)⟩ 0 0 1) ∧
      getTile ⟨[⟨1, 1, fun _ _ => (9, 9, 9)⟩],
          [(⟨"s", 0, 0, 0, 1⟩, extractTile ⟨1, 1, fun _ _ => (9, 9, 9)⟩ 0 0 1)]⟩
          "s" 0 0 0 1 =
        (some (extractTile ⟨1, 1, fun _ _ => (9, 9, 9)⟩ 0 0 1),
         ⟨[⟨1, 1, fun _ _ => (9, 9, 9)⟩],
          [(⟨"s", 0, 0, 0, 1⟩, extractTile ⟨1, 1, fun _ _ => (9, 9, 9)⟩ 0 0 1)]⟩) ∧
      ∀ pyr, getTile ⟨pyr,
          [(⟨"s", 0, 0, 0, 1⟩, extractTile ⟨1, 1, fun _ _ => (9, 9, 9)⟩ 0 0 1)]⟩
          "s" 0 0 0 1 =
        (some (extractTile ⟨1, 1, fun _ _ => (9, 9, 9)⟩ 0 0 1),
         ⟨pyr,
          [(⟨"s", 0, 0, 0, 1⟩, extractTile ⟨1, 1, fun _ _ => (9, 9, 9)⟩ 0 0 1)]⟩)) :=
  ⟨rfl, c5_tile_cache ⟨[⟨1, 1, fun _ _ => (9, 9, 9)⟩], []⟩ "s" 0 0 0 1
     (extractTile ⟨1, 1, fun _ _ => (9, 9, 9)⟩ 0 0 1)
     ⟨[⟨1, 1, fun _ _ => (9, 9, 9)⟩],
      [(⟨"s", 0, 0, 0, 1⟩, extractTile ⟨1, 1, fun _ _ => (9, 9, 9)⟩ 0 0 1)]⟩
     (by rfl)⟩

/-- C6: a `get_tile` request intersecting the level raster but touching the
image boundary returns a tile of exactly `size × size` pixels: the in-bounds
area equals the direct crop of the level raster anchored at the top-left and
every out-of-bounds pixel is white (255, 255, 255). -/
theorem c6_edge_tile (s : ReaderState) (slide : String) (L x y size : Nat)
    (img : Img) (himg : s.pyramid.get? L = some img)
    (hk : alookup s.tileCache ⟨slide, (L : Int), x, y, size⟩ = none)
    (hx : x * size < img.w) (hy : y * size < img.h)
    (hedge : img.w < x * size + size ∨ img.h < y * size + size)
    (i j : Nat) (hi : i < size) (hj : j < size) :
    ∃ t s', getTile s slide (L : Int) x y size = (some t, s') ∧
      t.h = size ∧ t.w = size ∧
      (y * size + i < img.h ∧ x * size + j < img.w →
        t.pix i j = img.pix (y * size + i) (x * size + j)) ∧
      ((img.h ≤ y * size + i ∨ img.w ≤ x * size + j) →
        t.pix i j = whitePixel) := by
  have hL : L < s.pyramid.length := by
    by_contra hge
    rw [List.get?_eq_none.2 (by omega)] at himg
    exact Option.noConfusion himg
  have hpg : pyGet s.pyramid (L : Int) = some img := by
    rw [pyGet_of_nonneg _ _ (Int.natCast_nonneg L)]
    simpa using himg
  have hguard : ¬ ((s.pyramid.length : Int) ≤ (L : Int)) := by
    exact_mod_cast not_le.2 hL
  have hrange : ¬ (img.w ≤ x * size ∨ img.h ≤ y * size) := by
    push_neg
    exact ⟨hx, hy⟩
  refine ⟨extractTile img (x * size) (y * size) size,
    { s with tileCache := (⟨slide, (L : Int), x, y, size⟩,
        extractTile img (x * size) (y * size) size) :: s.tileCache },
    ?_, ?_, ?_, ?_, ?_⟩
  · simp only [getTile, hk, hguard, hpg, hrange, if_false]
  · simp only [extractTile]
    split_ifs <;> rfl
  · simp only [extractTile]
    split_ifs <;> rfl
  · intro hin
    simp only [extractTile]
    split_ifs with hfull
    · rfl
    · simp only
      rw [if_pos (by omega)]
  · intro hout
    simp only [extractTile]
    split_ifs with hfull
    · exfalso
      obtain ⟨hf1, hf2⟩ := hfull
      rcases hout with hout | hout <;> omega
    · simp only
      rw [if_neg (by omega)]

/-- Witness for C6 on a 1 × 1 level raster with a 2 × 2 tile request at the
origin, checking the out-of-bounds pixel (1, 1). -/
theorem c6_edge_tile_witness :
    ∃ t s', getTile ⟨[⟨1, 1, fun _ _ => (5, 6, 7)⟩], []⟩ "s" ((0 : Nat) : Int)
        0 0 2 = (some t, s') ∧
      t.h = 2 ∧ t.w = 2 ∧
      (0 * 2 + 1 < (Img.mk 1 1 (fun _ _ => (5, 6, 7))).h ∧
          0 * 2 + 1 < (Img.mk 1 1 (fun _ _ => (5, 6, 7))).w →
        t.pix 1 1 = (Img.mk 1 1 (fun _ _ => (5, 6, 7))).pix (0 * 2 + 1) (0 * 2 + 1)) ∧
      (((Img.mk 1 1 (fun _ _ => (5, 6, 7))).h ≤ 0 * 2 + 1 ∨
          (Img.mk 1 1 (fun _ _ => (5, 6, 7))).w ≤ 0 * 2 + 1) →
        t.pix 1 1 = whitePixel) :=
  c6_edge_tile ⟨[⟨1, 1, fun _ _ => (5, 6, 7)⟩], []⟩ "s" 0 0 0 2
    ⟨1, 1, fun _ _ => (5, 6, 7)⟩ rfl rfl (by decide) (by decide)
    (Or.inl (by decide)) 1 1 (by decide) (by decide)

/-- C7: on an opened slide, with the tile not yet cached, a request with
`level ≥ len(pyramid)` returns `None` (the invalid-level signal), and a
request whose tile origin lies at or beyond the addressed level's extent
(`x*size ≥ width` or `y*size ≥ height`) returns `None` (the out-of-range
signal); both failures are values, not exceptions, and leave the state
unchanged. -/
theorem c7_invalid_requests (s : ReaderState) (slide : String) (level : Int)
    (x y size : Nat)
    (hk : alookup s.tileCache ⟨slide, level, x, y, size⟩ = none)
    (h : (s.pyramid.length : Int) ≤ level ∨
      ∃ img, pyGet s.pyramid level = some img ∧
        (img.w ≤ x * size ∨ img.h ≤ y * size)) :
    getTile s slide level x y size = (none, s) := by
  rcases h with hlev | ⟨img, hpg, hrange⟩
  · simp only [getTile, hk]
    rw [if_pos hlev]
  · have hlev : ¬ ((s.pyramid.length : Int) ≤ level) :=
      not_le.2 (pyGet_lt_length s.pyramid level img hpg)
    simp only [getTile, hk, hlev, hpg, hrange, if_false, if_true]

/-- Witness for C7: a one-level pyramid, empty tile cache, request at
level 5. -/
theorem c7_invalid_requests_witness :
    (alookup (ReaderState.mk [⟨1, 1, fun _ _ => (0, 0, 0)⟩] []).tileCache
        ⟨"s", 5, 0, 0, 512⟩ = none) ∧
    (((ReaderState.mk [⟨1, 1, fun _ _ => (0, 0, 0)⟩] []).pyramid.length : Int) ≤ 5) ∧
    getTile ⟨[⟨1, 1, fun _ _ => (0, 0, 0)⟩], []⟩ "s" 5 0 0 512 =
      (none, ⟨[⟨1, 1, fun _ _ => (0, 0, 0)⟩], []⟩) :=
  ⟨rfl, by decide,
   c7_invalid_requests ⟨[⟨1, 1, fun _ _ => (0, 0, 0)⟩], []⟩ "s" 5 0 0 512 rfl
     (Or.inl (by decide))⟩

/-- C10: on an opened slide with at least one level, a negative `level` with
`-len(pyramid) ≤ level < 0` and no pre-existing cache file for the key is not
rejected: the only level guard checks `level ≥ len(pyramid)`, Python negative
indexing selects pyramid level `len(pyramid) + level`, and (for an in-range
tile origin) a tile is produced and cached under the negative-level key, with
the same tile content a request for level `len(pyramid) + level` would
produce. -/
theorem c10_negative_level (s : ReaderState) (slide : String) (level : Int)
    (x y size : Nat) (hneg : level < 0)
    (hge : -(s.pyramid.length : Int) ≤ level)
    (hk : alookup s.tileCache ⟨slide, level, x, y, size⟩ = none)
    (img : Img)
    (himg : s.pyramid.get? ((s.pyramid.length : Int) + level).toNat = some img)
    (hx : x * size < img.w) (hy : y * size < img.h) :
    getTile s slide level x y size =
      (some (extractTile img (x * size) (y * size) size),
       { s with tileCache := (⟨slide, level, x, y, size⟩,
           extractTile img (x * size) (y * size) size) :: s.tileCache }) ∧
    ∀ posLevel : Int, posLevel = (s.pyramid.length : Int) + level →
      alookup s.tileCache ⟨slide, posLevel, x, y, size⟩ = none →
      (getTile s slide posLevel x y size).1 =
        (getTile s slide level x y size).1 := by
  have hpg : pyGet s.pyramid level = some img := by
    rw [pyGet_of_neg _ _ hneg (by omega)]
    exact himg
  have hguard : ¬ ((s.pyramid.length : Int) ≤ level) := by omega
  have hrange : ¬ (img.w ≤ x * size ∨ img.h ≤ y * size) := by
    push_neg
    exact ⟨hx, hy⟩
  have hcall : getTile s slide level x y size =
      (some (extractTile img (x * size) (y * size) size),
       { s with tileCache := (⟨slide, level, x, y, size⟩,
           extractTile img (x * size) (y * size) size) :: s.tileCache }) := by
    simp only [getTile, hk, hguard, hpg, hrange, if_false]
  refine ⟨hcall, ?_⟩
  intro posLevel hpos hk'
  subst hpos
  have hpg₂ : pyGet s.pyramid ((s.pyramid.length : Int) + level) = some img := by
    rw [pyGet_of_nonneg _ _ (by omega)]
    exact himg
  have hguard₂ : ¬ ((s.pyramid.length : Int) ≤ (s.pyramid.length : Int) + level) := by
    omega
  have hcall₂ : getTile s slide ((s.pyramid.length : Int) + level) x y size =
      (some (extractTile img (x * size) (y * size) size),
       { s with tileCache := (⟨slide, (s.pyramid.length : Int) + level, x, y, size⟩,
           extractTile img (x * size) (y * size) size) :: s.tileCache }) := by
    simp only [getTile, hk', hguard₂, hpg₂, hrange, if_false]
  rw [hcall, hcall₂]

/-- Witness for C10: a one-level pyramid, empty cache, request at level `-1`,
which serves pyramid level `1 + (-1) = 0`. -/
theorem c10_negative_level_witness :
    (getTile ⟨[⟨1, 1, fun _ _ => (3, 3, 3)⟩], []⟩ "s" (-1) 0 0 1 =
      (some (extractTile ⟨1, 1, fun _ _ => (3, 3, 3)⟩ 0 0 1),
       ⟨[⟨1, 1, fun _ _ => (3, 3, 3)⟩],
        [(⟨"s", -1, 0, 0, 1⟩, extractTile ⟨1, 1, fun _ _ => (3, 3, 3)⟩ 0 0 1)]⟩) ∧
    ∀ posLevel : Int,
      posLevel = (((ReaderState.mk [⟨1, 1, fun _ _ => (3, 3, 3)⟩] []).pyramid.length : Nat) : Int) + (-1) →
      alookup (ReaderState.mk [⟨1, 1, fun _ _ => (3, 3, 3)⟩] []).tileCache
        ⟨"s", posLevel, 0, 0, 1⟩ = none →
      (getTile ⟨[⟨1, 1, fun _ _ => (3, 3, 3)⟩], []⟩ "s" posLevel 0 0 1).1 =
        (getTile ⟨[⟨1, 1, fun _ _ => (3, 3, 3)⟩], []⟩ "s" (-1) 0 0 1).1) :=
  c10_negative_level ⟨[⟨1, 1, fun _ _ => (3, 3, 3)⟩], []⟩ "s" (-1) 0 0 1
    (by decide) (by decide) rfl ⟨1, 1, fun _ _ => (3, 3, 3)⟩ rfl
    (by decide) (by decide)

/-- Witness for C4's amended theorem on a concrete 1000 × 100 image with
`min_dimension = 512`. -/
theorem c4_open_slide_levels_witness :
    (0 < 512 ∧ 512 ≤ max 1000 100) ∧
    ((openSlidePng (some (1000, 100)) 512).1 = true ∧
    ∀ info, (openSlidePng (some (1000, 100)) 512).2 = some info →
      info.level_dimensions ≠ [] ∧
      info.level_dimensions.get? 0 = some (1000, 100) ∧
      info.level_downsamples.get? 0 = some 1 ∧
      (∀ i a b, info.level_downsamples.get? i = some a →
        info.level_downsamples.get? (i + 1) = some b → a < b) ∧
      ∀ a, info.level_dimensions.get? (info.level_dimensions.length - 1) = some a →
        a.1 ≤ 512 ∧ a.2 ≤ 512) :=
  ⟨⟨by decide, by decide⟩, c4_open_slide_levels 1000 100 512 (by decide) (by decide)⟩

end WSIViewer
